import Mathlib

/-!
Verification of the DYNAMO interpreter core (bfix/dynamo) against its
natural-language specification.  The Go sources are shallowly embedded:
numeric values (Go float64 `Variable`) are modelled as exact rationals,
Go maps used as value stores become association lists, and the
nondeterministic iteration order of Go maps inside `EqnList.Sort` is made
an explicit parameter.  Every definition is translated from the Go source
file named in its doc comment.
-/

namespace Dynamo

/-- Kind of a variable, from variable.go (NAME_KIND_CONST .. NAME_KIND_SUPPL). -/
inductive Kind where
  | const | init | level | rate | aux | suppl
deriving DecidableEq, Repr

/-- Stage of a variable, from variable.go (NAME_STAGE_NONE, _OLD, _NEW). -/
inductive Stage where
  | non | old | new
deriving DecidableEq, Repr

/-- Name of a state variable, from variable.go (struct Name with embedded Class). -/
structure Name where
  name : String
  kind : Kind
  stage : Stage
deriving DecidableEq, Repr

/-- Compare two names, from variable.go Name.Compare: a bitset over
SAMEVAR (1), SAMEKIND (2), SAMESTAGE (4); 7 is NAME_MATCH. -/
def nameCompare (n m : Name) : ℕ :=
  (if n.name = m.name then 1 else 0) +
  (if n.kind = m.kind then 2 else 0) +
  (if n.stage = m.stage then 4 else 0)

/-- Index suffix of a name, from variable.go Name.GetIndex. -/
def Name.getIdx (n : Name) : String :=
  match n.stage, n.kind with
  | .old, .level => "J"
  | .old, .rate => "JK"
  | .new, .level => "K"
  | .new, .rate => "KL"
  | _, _ => ""

/-- Equation mode as given in the source statement, from equation.go
(field Mode; the dispatcher only ever produces C, N, L, R, A or S). -/
inductive Mode where
  | C | N | L | R | A | S
deriving DecidableEq, Repr

/-- Equation, from equation.go (struct Equation): classified target,
dependency and reference name lists and the original statement text
(standing in for the formula, which the list-level claims never inspect). -/
structure Equation where
  target : Name
  mode : Mode
  deps : List Name
  refs : List Name
  stmt : String
deriving DecidableEq, Repr

/-- Error kinds, from the error constants in the Result file
(ErrModel... / ErrParse...). -/
inductive Err where
  | varExists | badMode | unknownEqn | depLoop | eqnOverwrite | badTarget
  | noTime | noVariable | wrongTableSize | noSuchTable
  | unknownFunction | invalidNumArgs | functionArg
deriving DecidableEq, Repr

/-! ## Dependency modes and identifier classification (equation.go) -/

/-- Dependency handling mode, from equation.go (DEP_NORMAL, DEP_ENFORCE, DEP_SKIP). -/
inductive DepMode where
  | normal | enforce | skip
deriving DecidableEq, Repr

/-- Classification of one right-hand-side identifier, from equation.go
line 165 of NewEquation's `check` closure: `true` means the identifier is
appended to Dependencies, `false` to References. -/
def classifyIdent (mode : DepMode) (stage : Stage) : Bool :=
  (mode == .normal && stage != .old) || mode == .enforce

/-- Classification of a call's identifier arguments with one dependency
mode per slot.  This is what the specification describes (dep_modes CON i
applied to slot i); equation.go does not implement it (see below). -/
def classifySlots (modes : List DepMode) (stages : List Stage) : List Bool :=
  List.zipWith classifyIdent modes stages

/-- Classification of a call's identifier arguments as equation.go actually
loops: `for _, arg := range x.Args { check(arg, mode) }` passes the same
single `mode` value to every argument slot of the call. -/
def classifyUniform (mode : DepMode) (stages : List Stage) : List Bool :=
  stages.map (classifyIdent mode)

/-! ## Function registry (functions.go) -/

/-- Shape of the optional structural argument check, from functions.go:
DELAY1/DELAY3 require their first argument to be a RATE at stage OLD,
SMOOTH/DLINF3 require a LEVEL at stage NEW. -/
inductive ChkKind where
  | noChk | rateOld | levelNew
deriving DecidableEq, Repr

/-- Static part of a registry entry, from functions.go (struct Function:
NumArgs, NumVars, DepModes, Check). -/
structure FcnSig where
  numArgs : ℕ
  numVars : ℕ
  depModes : List DepMode
  chk : ChkKind
deriving DecidableEq, Repr

/-- Function registry, from functions.go fcnList (static fields only). -/
def fcnSig : String → Option FcnSig
  | "SQRT" => some ⟨1, 0, [.normal], .noChk⟩
  | "SIN" => some ⟨1, 0, [.normal], .noChk⟩
  | "COS" => some ⟨1, 0, [.normal], .noChk⟩
  | "EXP" => some ⟨1, 0, [.normal], .noChk⟩
  | "LOG" => some ⟨1, 0, [.normal], .noChk⟩
  | "MAX" => some ⟨2, 0, [.normal, .normal], .noChk⟩
  | "MIN" => some ⟨2, 0, [.normal, .normal], .noChk⟩
  | "CLIP" => some ⟨4, 0, [.normal, .normal, .normal, .normal], .noChk⟩
  | "SWITCH" => some ⟨3, 0, [.normal, .normal, .normal], .noChk⟩
  | "STEP" => some ⟨2, 0, [.normal, .normal], .noChk⟩
  | "RAMP" => some ⟨2, 0, [.normal, .normal], .noChk⟩
  | "PULSE" => some ⟨3, 0, [.normal, .normal, .normal], .noChk⟩
  | "NOISE" => some ⟨0, 0, [], .noChk⟩
  | "TABLE" => some ⟨5, 0, [.normal, .normal, .normal, .normal, .normal], .noChk⟩
  | "TABHL" => some ⟨5, 1, [.normal, .normal, .normal, .normal, .normal], .noChk⟩
  | "TABXT" => some ⟨5, 0, [.normal, .normal, .normal, .normal, .normal], .noChk⟩
  | "TABPL" => some ⟨5, 0, [.normal, .normal, .normal, .normal, .normal], .noChk⟩
  | "DELAY1" => some ⟨2, 2, [.enforce, .normal], .rateOld⟩
  | "DELAY3" => some ⟨2, 7, [.enforce, .normal], .rateOld⟩
  | "SMOOTH" => some ⟨2, 1, [.skip, .normal], .levelNew⟩
  | "DLINF3" => some ⟨2, 4, [.normal, .normal], .levelNew⟩
  | _ => none

/-- Dependency-mode list of a registry entry (empty for unknown names). -/
def depModesOf (fname : String) : List DepMode :=
  ((fcnSig fname).map FcnSig.depModes).getD []

/-- Function argument as it appears at a call site: either a literal that
parses as a number (carrying its source text) or an identifier.  This
mirrors the two outcomes of strconv.ParseFloat in functions.go `resolve`
and the stringification in equation.go `eval`. -/
inductive Arg where
  | num (txt : String) (val : ℚ)
  | var (n : Name)
deriving DecidableEq, Repr

/-- Raw argument text as functions.go sees it (the string handed to Eval):
a literal keeps its text, an identifier is name plus index suffix. -/
def Arg.key : Arg → String
  | .num s _ => s
  | .var n => n.name ++ n.getIdx

/-- Default argument used with List.getD. -/
def dfltArg : Arg := .num "" 0

/-- Fresh automatic variable name, from variable.go NewAutoVar
(counter passed explicitly instead of the Go package-global autoId). -/
def autoName (i : ℕ) : String := "_" ++ toString i

/-- Structural argument check, from functions.go Check closures:
NewName on the first argument (fails on a literal), then a kind and a
stage test. -/
def checkArgs : ChkKind → List Arg → Bool
  | .noChk, _ => true
  | .rateOld, (.var n) :: _ => n.kind == .rate && n.stage == .old
  | .rateOld, _ => false
  | .levelNew, (.var n) :: _ => n.kind == .level && n.stage == .new
  | .levelNew, _ => false

/-- Lookup of a function at parse time, from functions.go HasFunction:
checks the explicit argument count, creates NumVars fresh automatic
variables, runs the optional argument check, and returns the DepModes,
the internal variables and the advanced fresh-name counter. -/
def hasFunction (fname : String) (args : List Arg) (c : ℕ) :
    Except Err (List DepMode × List String × ℕ) :=
  match fcnSig fname with
  | none => .error .unknownFunction
  | some f =>
    if args.length = f.numArgs then
      let intern := (List.range f.numVars).map (fun i => autoName (c + i + 1))
      if checkArgs f.chk args then .ok (f.depModes, intern, c + f.numVars)
      else .error .functionArg
    else .error .invalidNumArgs

/-- Extension of a call site's argument list by the internal variables,
from equation.go NewEquation: `x.Args = append(x.Args, intern...)`. -/
def expandCall (args : List Arg) (intern : List String) : List Arg :=
  args ++ intern.map (fun s => Arg.var ⟨s, .const, .non⟩)

/-! ## Model state and function evaluation (model.go, functions.go) -/

/-- Table store entry, from functions.go (struct Table: the sample data
and the precomputed Newton coefficients). -/
structure Table where
  data : List ℚ
  aj : List ℚ
deriving DecidableEq, Repr

/-- Model state as far as function evaluation needs it, from model.go
(fields Tables, Last, Current; Go maps become association lists). -/
structure Mdl where
  tables : List (String × Table)
  last : List (String × ℚ)
  current : List (String × ℚ)
deriving DecidableEq, Repr

/-- Assignment to a Go map, modelled on association lists. -/
def setVal (k : String) (v : ℚ) (st : List (String × ℚ)) : List (String × ℚ) :=
  (k, v) :: st.filter (fun p => p.1 ≠ k)

/-- Variable read, from model.go Model.Get: stages NONE and NEW read the
current state, stage OLD reads the previous state; otherwise NoVariable. -/
def mGet (m : Mdl) (n : Name) : Except Err ℚ :=
  match n.stage with
  | .non | .new =>
    match m.current.lookup n.name with
    | some v => .ok v
    | none => .error .noVariable
  | .old =>
    match m.last.lookup n.name with
    | some v => .ok v
    | none => .error .noVariable

/-- Argument resolution, from functions.go resolve: a numeric literal
yields its value, otherwise the argument is parsed as a name and read
from the model state. -/
def resolveArg (a : Arg) (m : Mdl) : Except Err ℚ :=
  match a with
  | .num _ v => .ok v
  | .var n => mGet m n

/-- Comparison tolerance 1e-9, from functions.go compare and §3 of the
specification. -/
def eps : ℚ := 1 / 1000000000

/-- Epsilon-tolerant comparison, from functions.go compare.  Modelled from
the spec: the method Variable.Compare used by the table and generating
functions is not under src/ (only its callers are); per the specification
it is the 1e-9-tolerant three-way compare, identical to the package-level
compare in functions.go. -/
def qCompare (v x : ℚ) : ℤ :=
  if |v - x| < eps then 0 else if v > x then 1 else -1

/-- STEP evaluation, from functions.go fcnList STEP Eval: resolve both
arguments, read TIME from the current state (NoTime when absent), return
the first argument once TIME has reached the second, else 0. -/
def stepEval (args : List Arg) (m : Mdl) : Except Err ℚ :=
  match resolveArg (args.getD 0 dfltArg) m with
  | .error e => .error e
  | .ok a =>
    match resolveArg (args.getD 1 dfltArg) m with
    | .error e => .error e
    | .ok b =>
      match m.current.lookup "TIME" with
      | some time => .ok (if 0 ≤ qCompare time b then a else 0)
      | none => .error .noTime

/-- RAMP evaluation, from functions.go fcnList RAMP Eval: call STEP on the
same arguments, then accumulate: the value stored in the previous state
under the raw text of the LAST argument (RAMP allocates no internal
variable, so that text is the second explicit argument) plus DT times the
STEP value; the sum is written back into the current state under the same
key and returned. -/
def rampEval (args : List Arg) (m : Mdl) : Except Err (ℚ × Mdl) :=
  match stepEval args m with
  | .error e => .error e
  | .ok sv =>
    let lvl := (args.getLastD dfltArg).key
    let dt := (m.current.lookup "DT").getD 0
    let v := (m.last.lookup lvl).getD 0
    let val := v + dt * sv
    .ok (val, { m with current := setVal lvl val m.current })

/-- Truncation toward zero, modelling Go's float64-to-int conversion
`int(pos)` in functions.go table. -/
def qTrunc (q : ℚ) : ℤ := if 0 ≤ q then ⌊q⌋ else -⌊-q⌋

/-- Newton polynomial interpolation, from functions.go newton. -/
def newton (x : ℚ) (aj : List ℚ) : ℚ :=
  let num := aj.length
  let step : ℚ := 1 / ((num : ℚ) - 1)
  (List.range num).foldl
    (fun y j =>
      y + aj.getD j 0 * ((List.range j).foldl (fun p i => p * (x - (i : ℚ) * step)) 1))
    0

/-- Generic table evaluation, from functions.go table (modes 0 =
TABLE/TABHL, 1 = TABXT, 2 = TABPL): table lookup by the first argument's
text, resolution of x, min, max, step, the size consistency check
`(max-min).Compare(n*step) != 0` with n = len(Data)-1 (WrongTableSize on
failure), the TABHL range bookkeeping when a sixth argument is present,
and the mode-dependent interpolation or extrapolation. -/
def tableFn (args : List Arg) (m : Mdl) (mode : ℕ) : Except Err (ℚ × Mdl) :=
  match m.tables.lookup (args.getD 0 dfltArg).key with
  | none => .error .noSuchTable
  | some tbl =>
    match resolveArg (args.getD 1 dfltArg) m with
    | .error e => .error e
    | .ok x =>
    match resolveArg (args.getD 2 dfltArg) m with
    | .error e => .error e
    | .ok mn =>
    match resolveArg (args.getD 3 dfltArg) m with
    | .error e => .error e
    | .ok mx =>
    match resolveArg (args.getD 4 dfltArg) m with
    | .error e => .error e
    | .ok step =>
      let n : ℚ := (tbl.data.length : ℚ) - 1
      if qCompare (mx - mn) (n * step) ≠ 0 then .error .wrongTableSize
      else
        let pos : ℚ := n * (x - mn) / (mx - mn)
        let idx : ℤ := qTrunc pos
        let frac : ℚ := pos - (idx : ℚ)
        let m1 :=
          if args.length = 6 then
            let hlKey := (args.getD 5 dfltArg).key
            let hl := (m.current.lookup hlKey).getD 1
            let m0 :=
              if (m.current.lookup hlKey).isNone then
                { m with current := setVal hlKey 1 m.current }
              else m
            if qCompare hl 0 ≠ 0 then
              let outside := qCompare pos 0 < 0 || qCompare pos n > 0
              if outside && qCompare hl 0 > 0 then
                { m0 with current := setVal hlKey (-1) m0.current }
              else if !outside && qCompare hl 0 < 0 then
                { m0 with current := setVal hlKey 1 m0.current }
              else m0
            else m0
          else m
        let val : ℚ :=
          if mode = 2 then newton pos tbl.aj
          else if idx < 0 then
            if mode = 0 then tbl.data.getD 0 0
            else (tbl.data.getD 1 0 - tbl.data.getD 0 0) / step * pos + tbl.data.getD 0 0
          else if idx > (tbl.data.length : ℤ) - 2 then
            let lastIx := tbl.data.length - 1
            if mode = 0 then tbl.data.getD lastIx 0
            else (tbl.data.getD lastIx 0 - tbl.data.getD (lastIx - 1) 0) / step * (pos - 1)
                   + tbl.data.getD lastIx 0
          else tbl.data.getD idx.toNat 0
                 + (tbl.data.getD (idx.toNat + 1) 0 - tbl.data.getD idx.toNat 0) * frac
        .ok (val, m1)

/-! ## Equation list: deduplication and topological sort (eqnlist.go, model.go) -/

/-- Entry of the sorting maps, from eqnlist.go (struct eqnEntry: position,
target name and the set of dependency positions).  The equation itself is
carried along for convenience; the Go code recovers it as el.eqns at pos. -/
structure Entry where
  pos : ℕ
  name : String
  eqn : Equation
  deps : List ℕ
deriving DecidableEq, Repr

/-- Character-list prefix test (for the substring search below). -/
def charsStart : List Char → List Char → Bool
  | [], _ => true
  | _ :: _, [] => false
  | a :: as, b :: bs => a == b && charsStart as bs

/-- Character-list substring test (for strings.Index in model.go). -/
def charsSub (p : List Char) : List Char → Bool
  | [] => charsStart p []
  | b :: bs => charsStart p (b :: bs) || charsSub p bs

/-- System-name test, from model.go Model.IsSystem: a substring search of
name plus comma inside the literal system-name list (so that the Go quirk
of matching suffixes such as ME is kept), or an exact table-name match. -/
def isSystem (tables : List String) (n : String) : Bool :=
  charsSub (n ++ ",").data "TIME,DT,LENGTH,PLTPER,PRTPER,".data || tables.contains n

/-- Name-to-position lookup in a bucket (the Go map access list at d.Name). -/
def lookupPos (names : List (String × ℕ)) (k : String) : Option ℕ :=
  names.lookup k

/-- Dependency scan for one equation, from the first loop of eqnSort in
eqnlist.go Sort: system names are skipped, a dependency defined inside the
bucket adds its position (self edges are dropped, the map write acts as a
set insert), a dependency only found in the reference bucket is skipped,
and anything else stops the scan for this equation with the unknown flag
set (the Go `break` after the UnknownEqn failure). -/
def entryDeps (names : List (String × ℕ)) (refNames : Option (List String))
    (tables : List String) (pos : ℕ) : List Name → List ℕ → List ℕ × Bool
  | [], acc => (acc, false)
  | d :: ds, acc =>
    if isSystem tables d.name then entryDeps names refNames tables pos ds acc
    else
      match lookupPos names d.name with
      | some p =>
        entryDeps names refNames tables pos ds
          (if p = pos then acc else if acc.contains p then acc else acc ++ [p])
      | none =>
        match refNames with
        | some rs =>
          if rs.contains d.name then entryDeps names refNames tables pos ds acc
          else (acc, true)
        | none => (acc, true)

/-- Entry with its dependency positions filled in (second field of the
scan dropped). -/
def withDeps (names : List (String × ℕ)) (refNames : Option (List String))
    (tables : List String) (e : Entry) : Entry :=
  { e with deps := (entryDeps names refNames tables e.pos e.eqn.deps []).1 }

/-- Whether any equation of the bucket hit an unresolvable dependency
(the UnknownEqn failure kept in res by the Go loop). -/
def unknownIn (names : List (String × ℕ)) (refNames : Option (List String))
    (tables : List String) (bucket : List Entry) : Bool :=
  bucket.any (fun e => (entryDeps names refNames tables e.pos e.eqn.deps []).2)

/-- Bucket construction, from the classification loop of eqnlist.go Sort:
equations of modes C and N go to the init bucket, modes A, R, L and S to
the run bucket (the Go test is membership of the mode in the strings CN
and ARLS); a second equation with the same target name inside one bucket
is a VariableExists failure. -/
def mkBucketsAux : List Equation → ℕ → List Entry → List Entry →
    Except Err (List Entry × List Entry)
  | [], _, bI, bR => .ok (bI, bR)
  | e :: es, i, bI, bR =>
    match e.mode with
    | .C | .N =>
      if bI.any (fun x => x.name = e.target.name) then .error .varExists
      else mkBucketsAux es (i + 1) (bI ++ [⟨i, e.target.name, e, []⟩]) bR
    | _ =>
      if bR.any (fun x => x.name = e.target.name) then .error .varExists
      else mkBucketsAux es (i + 1) bI (bR ++ [⟨i, e.target.name, e, []⟩])

/-- Both sorting buckets of an equation list. -/
def bucketsOf (el : List Equation) : Except Err (List Entry × List Entry) :=
  mkBucketsAux el 0 [] []

/-- Kahn's algorithm main loop, from eqnlist.go Sort (eqnSort closure):
take the first node of S, append it to L, remove it from the dependency
sets of the pending graph nodes, move freed nodes to the back of S; stop
when S is empty and return L together with the still-pending graph.  The
fuel argument is the loop measure (number of nodes still in S or the
graph); each iteration moves exactly one node out of S into L while the
sum of the two list lengths drops by one, so with the initial fuel of
`kahnLoop` the exhaustion branch is never reached. -/
def kahnGo : ℕ → List Entry → List Entry → List Entry → List Entry × List Entry
  | _, L, [], graph => (L, graph)
  | 0, L, S, graph => (L, S ++ graph)
  | fuel + 1, L, n :: S1, graph =>
    let graph1 := graph.map (fun m => { m with deps := m.deps.filter (fun p => p ≠ n.pos) })
    let freed := graph1.filter (fun m => m.deps.isEmpty)
    let rest := graph1.filter (fun m => !m.deps.isEmpty)
    kahnGo fuel (L ++ [n]) (S1 ++ freed) rest

/-- Kahn's loop entered with sufficient fuel. -/
def kahnLoop (L S graph : List Entry) : List Entry × List Entry :=
  kahnGo (S.length + graph.length) L S graph

/-- Iteration order of a Go map modelled as a list of positions: the
entries of the bucket visited in the order given.  A run of the real
program corresponds to `ord` being some permutation of the bucket's
positions. -/
def permuteBy (entries : List Entry) (ord : List ℕ) : List Entry :=
  ord.filterMap (fun p => entries.find? (fun e => e.pos = p))

/-- One bucket pass of eqnlist.go Sort (eqnSort closure): split the
entries into the start set S (no dependencies) and the pending graph, run
Kahn's loop, report DependencyLoop when the graph is nonempty at the end,
otherwise keep an earlier UnknownEqn failure or return the sorted entries. -/
def eqnSortRun (entries : List Entry) (unknown : Bool) (ord : List ℕ) :
    Except Err (List Entry) :=
  let iter := permuteBy entries ord
  let S0 := iter.filter (fun e => e.deps.isEmpty)
  let G0 := iter.filter (fun e => !e.deps.isEmpty)
  let r := kahnLoop [] S0 G0
  if r.2.isEmpty then
    if unknown then .error .unknownEqn else .ok r.1
  else .error .depLoop

/-- Dependency-annotated init bucket of an equation list. -/
def initDepEntries (el : List Equation) (tables : List String) : List Entry :=
  match bucketsOf el with
  | .ok (bI, _) => bI.map (withDeps (bI.map (fun e => (e.name, e.pos))) none tables)
  | .error _ => []

/-- Dependency-annotated run bucket of an equation list (the init bucket's
names serve as the reference fallback). -/
def runDepEntries (el : List Equation) (tables : List String) : List Entry :=
  match bucketsOf el with
  | .ok (bI, bR) =>
    bR.map (withDeps (bR.map (fun e => (e.name, e.pos))) (some (bI.map Entry.name)) tables)
  | .error _ => []

/-- Equation-list sort, from eqnlist.go EqnList.Sort: classify into the
init and run buckets, sort each with Kahn's algorithm (the init bucket
first, without a reference fallback; the run bucket with the init names as
fallback), and concatenate the two sorted buckets.  The two `ord`
parameters supply the iteration order of the corresponding Go map ranges. -/
def sortOrd (el : List Equation) (tables : List String) (ordI ordR : List ℕ) :
    Except Err (List Equation) :=
  match bucketsOf el with
  | .error e => .error e
  | .ok (bI, bR) =>
    let namesI := bI.map (fun e => (e.name, e.pos))
    match eqnSortRun (initDepEntries el tables) (unknownIn namesI none tables bI) ordI with
    | .error e => .error e
    | .ok LI =>
      let namesR := bR.map (fun e => (e.name, e.pos))
      match eqnSortRun (runDepEntries el tables)
          (unknownIn namesR (some (bI.map Entry.name)) tables bR) ordR with
      | .error e => .error e
      | .ok LR => .ok (LI.map Entry.eqn ++ LR.map Entry.eqn)

/-! ## AddStatement equation handling (model.go) -/

/-- Target class forced by a statement mode, from eqnlist.go validateEqn. -/
def targetClassOf : Mode → Kind × Stage
  | .C => (.const, .non)
  | .N => (.init, .non)
  | .L => (.level, .new)
  | .R => (.rate, .new)
  | .A => (.aux, .new)
  | .S => (.suppl, .new)

/-- Target check of validateEqn with a nil equation list, from eqnlist.go:
kind and stage of the target must match the mode's class; for modes N and
R any failure is demoted to a warning (res is reset to Success), so the
check never fails for them. -/
def validateTargetNil (e : Equation) : Bool :=
  match e.mode with
  | .N | .R => true
  | m => e.target.kind == (targetClassOf m).1 && e.target.stage == (targetClassOf m).2

/-- Duplicate test, from eqnlist.go EqnList.Contains: some stored equation
whose target fully matches (Compare result NAME_MATCH, value 7). -/
def elContains (eqns : List Equation) (e : Equation) : Bool :=
  eqns.any (fun x => nameCompare x.target e.target = 7)

/-- Replacement of the first fully matching equation, from eqnlist.go
EqnList.Replace (the loop breaks after the first hit). -/
def elReplace : List Equation → Equation → List Equation
  | [], _ => []
  | x :: xs, e =>
    if nameCompare x.target e.target = 7 then e :: xs else x :: elReplace xs e

/-- Equation branch of model.go AddStatement: each parsed equation is
target-checked (failure stops the loop), then a duplicate is replaced —
with the res set to an EqnOverwrite failure when the model is not in
editing mode, an error that a later loop iteration overwrites — and a new
equation is appended.  Returns the final stored list and the final res. -/
def addEquations (edit : Bool) (stored : List Equation) :
    List Equation → List Equation × Option Err
  | [] => (stored, none)
  | e :: rest =>
    if validateTargetNil e then
      if elContains stored e then
        match rest with
        | [] => (elReplace stored e, if edit then none else some .eqnOverwrite)
        | _ => addEquations edit (elReplace stored e) rest
      else addEquations edit (stored ++ [e]) rest
    else (stored, some .badTarget)

/-! ## Run loop (model.go Model.Run) -/

/-- Mode filter of the A and R pass, from model.go: strings.Contains
applied to "AR". -/
def isAR (e : Equation) : Bool := e.mode == .A || e.mode == .R

/-- Mode filter of the L and S pass, from model.go: strings.Contains
applied to "LS". -/
def isLS (e : Equation) : Bool := e.mode == .L || e.mode == .S

/-- Observable actions of one epoch of the run loop. -/
inductive Event where
  | evalEqn (e : Equation)
  | propagate
  | printAdd (epoch : ℕ)
  | plotAdd (epoch : ℕ)
  | timeAdv
deriving DecidableEq, Repr

/-- Event trace of one iteration of the epoch loop, from model.go
Model.Run: compute("AR", runEqns) in list order, the state propagation
(Last becomes a copy of Current), compute("LS", runEqns) in list order,
Print.Add(epoch), Plot.Add(epoch), and the TIME advance by DT. -/
def epochEvents (runEqns : List Equation) (epoch : ℕ) : List Event :=
  (runEqns.filter isAR).map Event.evalEqn ++ [Event.propagate]
    ++ (runEqns.filter isLS).map Event.evalEqn
    ++ [Event.printAdd epoch, Event.plotAdd epoch, Event.timeAdv]

/-- Loop variable t after n iterations, from the epoch loop header of
model.go Model.Run: `for epoch, t := 1, time; t <= length; epoch, t =
epoch+1, t+dt` (Go float64 arithmetic modelled exactly over the
rationals). -/
def stepIter (time dt : ℚ) (n : ℕ) : ℚ := (fun t => t + dt)^[n] time

/-! ## Auxiliary projections and concrete data for the claim theorems -/

/-- Sorting-invariant projection of an entry (position and equation;
only the dependency set of an entry is ever mutated by Kahn's loop). -/
def keyOf (e : Entry) : ℕ × Equation := (e.pos, e.eqn)

/-- Membership test for the init bucket (modes C and N). -/
def isInitMode (e : Equation) : Bool := e.mode == .C || e.mode == .N

/-- Constant equation A=1 (example data). -/
def cA : Equation := ⟨⟨"A", .const, .non⟩, .C, [], [], "A=1"⟩

/-- Constant equation B=2 (example data). -/
def cB : Equation := ⟨⟨"B", .const, .non⟩, .C, [], [], "B=2"⟩

/-- Supplement equation SUP.K=5 (example data). -/
def sSup : Equation := ⟨⟨"SUP", .suppl, .new⟩, .S, [], [], "SUP.K=5"⟩

/-- Auxiliary equation Z.K=SUP.K, depending on the supplement target
(example data). -/
def aZ : Equation := ⟨⟨"Z", .aux, .new⟩, .A, [⟨"SUP", .level, .new⟩], [], "Z.K=SUP.K"⟩

/-- Level equation INV.K=5 (example data). -/
def eL1 : Equation := ⟨⟨"INV", .level, .new⟩, .L, [], [], "INV.K=5"⟩

/-- Level equation INV.K=7, same target as eL1 (example data). -/
def eL2 : Equation := ⟨⟨"INV", .level, .new⟩, .L, [], [], "INV.K=7"⟩

/-- Constant declaration X=1 (example data). -/
def cX : Equation := ⟨⟨"X", .const, .non⟩, .C, [], [], "X=1"⟩

/-- Initializer X=2 with the same bare name as cX (example data). -/
def nX : Equation := ⟨⟨"X", .init, .non⟩, .N, [], [], "X=2"⟩

/-- Level equation L1.K=1 (example data). -/
def lOne : Equation := ⟨⟨"L1", .level, .new⟩, .L, [], [], "L1.K=1"⟩

/-- Model with TIME=1 and DT=2 in the current state (example data). -/
def mRamp : Mdl := ⟨[], [], [("TIME", 1), ("DT", 2)]⟩

/-- Model holding a two-sample table T (example data). -/
def mTab : Mdl := ⟨[("T", ⟨[0, 1], [0, 1]⟩)], [], []⟩

/-- Argument list TABLE(T, 0, 0, 1, 1) (example data). -/
def argsTab : List Arg :=
  [.var ⟨"T", .const, .non⟩, .num "0" 0, .num "0" 0, .num "1" 1, .num "1" 1]

/-! ## Helper lemmas -/

/-- Splitting a list by the emptiness of the dependency sets is a
permutation. -/
lemma partition_deps_perm (l : List Entry) :
    List.Perm (l.filter (fun m => m.deps.isEmpty) ++ l.filter (fun m => !m.deps.isEmpty)) l := by
  induction l with
  | nil => rfl
  | cons a t ih =>
    by_cases hm : a.deps.isEmpty <;> simp [hm]
    · exact ih
    · exact List.Perm.trans List.perm_middle (ih.cons a)

/-- The projection keyOf is untouched by a dependency update. -/
lemma keyOf_comp_update (n : Entry) :
    keyOf ∘ (fun m => { m with deps := m.deps.filter (fun p => p ≠ n.pos) }) = keyOf := rfl

/-- Kahn's loop only rearranges entries: the concatenation of its result
lists is, under keyOf, a permutation of the concatenation of its inputs. -/
lemma kahnGo_key_perm : ∀ (fuel : ℕ) (L S graph : List Entry),
    List.Perm (((kahnGo fuel L S graph).1 ++ (kahnGo fuel L S graph).2).map keyOf)
      ((L ++ S ++ graph).map keyOf)
  | _, L, [], graph => by simp [kahnGo]
  | 0, L, n :: S1, graph => by simp [kahnGo, List.append_assoc]
  | fuel + 1, L, n :: S1, graph => by
    have ih := kahnGo_key_perm fuel (L ++ [n])
      (S1 ++ (graph.map (fun m => { m with deps := m.deps.filter (fun p => p ≠ n.pos) })).filter
        (fun m => m.deps.isEmpty))
      ((graph.map (fun m => { m with deps := m.deps.filter (fun p => p ≠ n.pos) })).filter
        (fun m => !m.deps.isEmpty))
    refine List.Perm.trans (by simpa [kahnGo] using ih) ?_
    simp only [List.map_append, List.append_assoc, List.singleton_append, List.map_cons,
      List.cons_append]
    refine List.Perm.append_left _ (List.Perm.cons _ ?_)
    refine List.Perm.append_left _ ?_
    rw [← List.map_append]
    refine List.Perm.trans (List.Perm.map keyOf (partition_deps_perm _)) ?_
    rw [List.map_map]
    exact List.Perm.of_eq rfl

/-- On success, one bucket pass returns a permutation of the iterated
entries' equations. -/
lemma eqnSortRun_ok_perm (entries : List Entry) (unknown : Bool) (ord : List ℕ)
    (L : List Entry) (h : eqnSortRun entries unknown ord = .ok L) :
    List.Perm (L.map Entry.eqn) ((permuteBy entries ord).map Entry.eqn) := by
  unfold eqnSortRun at h
  set iter := permuteBy entries ord with hiter
  by_cases hg : (kahnLoop [] (iter.filter (fun e => e.deps.isEmpty))
      (iter.filter (fun e => !e.deps.isEmpty))).2.isEmpty
  · rw [if_pos hg] at h
    cases hu : unknown
    · rw [hu, if_neg (by simp)] at h
      injection h with h
      subst h
      have hkey := kahnGo_key_perm
        ((iter.filter (fun e => e.deps.isEmpty)).length
          + (iter.filter (fun e => !e.deps.isEmpty)).length)
        [] (iter.filter (fun e => e.deps.isEmpty)) (iter.filter (fun e => !e.deps.isEmpty))
      rw [List.isEmpty_iff] at hg
      unfold kahnLoop at hg ⊢
      rw [hg] at hkey
      simp only [List.append_nil, List.nil_append] at hkey
      have hperm := List.Perm.trans hkey (List.Perm.map keyOf (partition_deps_perm iter))
      have := List.Perm.map Prod.snd hperm
      simpa [List.map_map, Function.comp] using this
    · rw [hu] at h
      simp at h
  · rw [if_neg hg] at h
    simp at h

/-- Bucket construction: the init bucket collects exactly the equations of
modes C and N and the run bucket all others, both in declaration order. -/
lemma mkBucketsAux_spec : ∀ (es : List Equation) (i : ℕ) (bI bR rI rR : List Entry),
    mkBucketsAux es i bI bR = .ok (rI, rR) →
    rI.map Entry.eqn = bI.map Entry.eqn ++ es.filter isInitMode
      ∧ rR.map Entry.eqn = bR.map Entry.eqn ++ es.filter (fun e => !isInitMode e)
  | [], i, bI, bR, rI, rR => by
    intro h
    simp [mkBucketsAux] at h
    simp [h.1, h.2]
  | e :: es, i, bI, bR, rI, rR => by
    intro h
    cases hm : e.mode with
    | C =>
      rw [mkBucketsAux, hm] at h
      by_cases hd : bI.any (fun x => x.name = e.target.name) <;> simp [hd] at h
      have ih := mkBucketsAux_spec es (i + 1) (bI ++ [⟨i, e.target.name, e, []⟩]) bR rI rR h
      simpa [isInitMode, hm] using ih
    | N =>
      rw [mkBucketsAux, hm] at h
      by_cases hd : bI.any (fun x => x.name = e.target.name) <;> simp [hd] at h
      have ih := mkBucketsAux_spec es (i + 1) (bI ++ [⟨i, e.target.name, e, []⟩]) bR rI rR h
      simpa [isInitMode, hm] using ih
    | A =>
      rw [mkBucketsAux, hm] at h
      by_cases hd : bR.any (fun x => x.name = e.target.name) <;> simp [hd] at h
      have ih := mkBucketsAux_spec es (i + 1) bI (bR ++ [⟨i, e.target.name, e, []⟩]) rI rR h
      simpa [isInitMode, hm] using ih
    | R =>
      rw [mkBucketsAux, hm] at h
      by_cases hd : bR.any (fun x => x.name = e.target.name) <;> simp [hd] at h
      have ih := mkBucketsAux_spec es (i + 1) bI (bR ++ [⟨i, e.target.name, e, []⟩]) rI rR h
      simpa [isInitMode, hm] using ih
    | L =>
      rw [mkBucketsAux, hm] at h
      by_cases hd : bR.any (fun x => x.name = e.target.name) <;> simp [hd] at h
      have ih := mkBucketsAux_spec es (i + 1) bI (bR ++ [⟨i, e.target.name, e, []⟩]) rI rR h
      simpa [isInitMode, hm] using ih
    | S =>
      rw [mkBucketsAux, hm] at h
      by_cases hd : bR.any (fun x => x.name = e.target.name) <;> simp [hd] at h
      have ih := mkBucketsAux_spec es (i + 1) bI (bR ++ [⟨i, e.target.name, e, []⟩]) rI rR h
      simpa [isInitMode, hm] using ih

/-- The equations of the two buckets of a successful classification. -/
lemma bucketsOf_spec (el : List Equation) (bI bR : List Entry)
    (h : bucketsOf el = .ok (bI, bR)) :
    bI.map Entry.eqn = el.filter isInitMode
      ∧ bR.map Entry.eqn = el.filter (fun e => !isInitMode e) := by
  have := mkBucketsAux_spec el 0 [] [] bI bR h
  simpa using this

/-- The withDeps annotation keeps the equation of every entry. -/
lemma map_eqn_withDeps (names : List (String × ℕ)) (refNames : Option (List String))
    (tables : List String) (b : List Entry) :
    (b.map (withDeps names refNames tables)).map Entry.eqn = b.map Entry.eqn := by
  rw [List.map_map]
  rfl

/-- Decomposition of a successful sort: the output is the sorted init
bucket followed by the sorted run bucket, each a permutation of the
corresponding mode filter of the input. -/
lemma sortOrd_ok_parts (el : List Equation) (tables : List String) (ordI ordR : List ℕ)
    (out : List Equation)
    (hI : List.Perm (permuteBy (initDepEntries el tables) ordI) (initDepEntries el tables))
    (hR : List.Perm (permuteBy (runDepEntries el tables) ordR) (runDepEntries el tables))
    (h : sortOrd el tables ordI ordR = .ok out) :
    ∃ LI LR, out = LI ++ LR ∧ List.Perm LI (el.filter isInitMode)
      ∧ List.Perm LR (el.filter (fun e => !isInitMode e)) := by
  unfold sortOrd at h
  cases hb : bucketsOf el with
  | error e => rw [hb] at h; simp at h
  | ok pair =>
    obtain ⟨bI, bR⟩ := pair
    rw [hb] at h
    simp only at h
    have hIdef : initDepEntries el tables
        = bI.map (withDeps (bI.map (fun e => (e.name, e.pos))) none tables) := by
      unfold initDepEntries
      rw [hb]
    have hRdef : runDepEntries el tables
        = bR.map (withDeps (bR.map (fun e => (e.name, e.pos))) (some (bI.map Entry.name)) tables) := by
      unfold runDepEntries
      rw [hb]
    cases hsI : eqnSortRun (initDepEntries el tables)
        (unknownIn (bI.map (fun e => (e.name, e.pos))) none tables bI) ordI with
    | error e => rw [hsI] at h; simp at h
    | ok LI =>
      rw [hsI] at h
      simp only at h
      cases hsR : eqnSortRun (runDepEntries el tables)
          (unknownIn (bR.map (fun e => (e.name, e.pos))) (some (bI.map Entry.name)) tables bR)
          ordR with
      | error e => rw [hsR] at h; simp at h
      | ok LR =>
        rw [hsR] at h
        simp only [Except.ok.injEq] at h
        refine ⟨LI.map Entry.eqn, LR.map Entry.eqn, h.symm, ?_, ?_⟩
        · have h1 := eqnSortRun_ok_perm _ _ _ _ hsI
          have h2 := List.Perm.map Entry.eqn hI
          have h3 : (initDepEntries el tables).map Entry.eqn = el.filter isInitMode := by
            rw [hIdef, map_eqn_withDeps, (bucketsOf_spec el bI bR hb).1]
          exact ((h1.trans h2).trans (List.Perm.of_eq h3))
        · have h1 := eqnSortRun_ok_perm _ _ _ _ hsR
          have h2 := List.Perm.map Entry.eqn hR
          have h3 : (runDepEntries el tables).map Entry.eqn
              = el.filter (fun e => !isInitMode e) := by
            rw [hRdef, map_eqn_withDeps, (bucketsOf_spec el bI bR hb).2]
          exact ((h1.trans h2).trans (List.Perm.of_eq h3))

/-- Case analysis of the event found at a position of an epoch trace. -/
lemma eventAt_cases (runEqns : List Equation) (ep n : ℕ) (v : Event)
    (h : (epochEvents runEqns ep)[n]? = some v) :
    (∃ q, q ∈ runEqns.filter isAR ∧ v = .evalEqn q ∧ n < (runEqns.filter isAR).length)
    ∨ (v = .propagate ∧ n = (runEqns.filter isAR).length)
    ∨ (∃ q, q ∈ runEqns.filter isLS ∧ v = .evalEqn q
        ∧ (runEqns.filter isAR).length < n
        ∧ n < (runEqns.filter isAR).length + 1 + (runEqns.filter isLS).length)
    ∨ (v = .printAdd ep ∧ n = (runEqns.filter isAR).length + 1 + (runEqns.filter isLS).length)
    ∨ (v = .plotAdd ep ∧ n = (runEqns.filter isAR).length + 1 + (runEqns.filter isLS).length + 1)
    ∨ (v = .timeAdv ∧ n = (runEqns.filter isAR).length + 1 + (runEqns.filter isLS).length + 2) := by
  simp only [epochEvents, List.append_assoc] at h
  rcases Nat.lt_or_ge n ((runEqns.filter isAR).map Event.evalEqn).length with h1 | h1
  · rw [List.getElem?_append_left h1] at h
    have hv := List.getElem?_mem h
    rw [List.mem_map] at hv
    obtain ⟨q, hq, hveq⟩ := hv
    exact Or.inl ⟨q, hq, hveq.symm, by simpa using h1⟩
  · rw [List.getElem?_append_right h1] at h
    rw [List.length_map] at h1
    set A := (runEqns.filter isAR).length with hA
    rcases Nat.eq_or_lt_of_le h1 with h2 | h2
    · rw [List.length_map, ← h2, Nat.sub_self] at h
      simp only [List.singleton_append, List.getElem?_cons_zero, Option.some.injEq] at h
      exact Or.inr (Or.inl ⟨h.symm, h2.symm⟩)
    · have h3 : 1 ≤ n - A := by omega
      rw [List.length_map, List.singleton_append] at h
      rw [show (n - A) = (n - A - 1) + 1 by omega] at h
      simp only [List.getElem?_cons_succ] at h
      rcases Nat.lt_or_ge (n - A - 1) ((runEqns.filter isLS).map Event.evalEqn).length with
        h4 | h4
      · rw [List.getElem?_append_left h4] at h
        have hv := List.getElem?_mem h
        rw [List.mem_map] at hv
        obtain ⟨q, hq, hveq⟩ := hv
        rw [List.length_map] at h4
        exact Or.inr (Or.inr (Or.inl ⟨q, hq, hveq.symm, by omega, by omega⟩))
      · rw [List.getElem?_append_right h4] at h
        rw [List.length_map] at h4
        set B := (runEqns.filter isLS).length with hB
        rcases hr : n - A - 1 - ((runEqns.filter isLS).map Event.evalEqn).length with _ | r
        · rw [hr] at h
          simp only [List.getElem?_cons_zero, Option.some.injEq] at h
          rw [List.length_map] at hr
          exact Or.inr (Or.inr (Or.inr (Or.inl ⟨h.symm, by omega⟩)))
        · rw [hr] at h
          rw [List.length_map] at hr
          rcases r with _ | r
          · simp only [List.getElem?_cons_succ, List.getElem?_cons_zero,
              Option.some.injEq] at h
            exact Or.inr (Or.inr (Or.inr (Or.inr (Or.inl ⟨h.symm, by omega⟩))))
          · rcases r with _ | r
            · simp only [List.getElem?_cons_succ, List.getElem?_cons_zero,
                Option.some.injEq] at h
              exact Or.inr (Or.inr (Or.inr (Or.inr (Or.inr ⟨h.symm, by omega⟩))))
            · simp at h

/-! ## Claim theorems -/

/-- C10: whenever Sort returns success, the returned equation list is a
permutation of the input list — every input equation appears exactly once,
none dropped, duplicated or altered — and all init-bucket (C, N) equations
precede all run-bucket equations.  The two order parameters range over the
possible Go map iteration orders, constrained to be permutations of the
respective bucket. -/
theorem sort_success_is_permutation (el : List Equation) (tables : List String)
    (ordI ordR : List ℕ) (out : List Equation)
    (hI : List.Perm (permuteBy (initDepEntries el tables) ordI) (initDepEntries el tables))
    (hR : List.Perm (permuteBy (runDepEntries el tables) ordR) (runDepEntries el tables))
    (h : sortOrd el tables ordI ordR = .ok out) :
    List.Perm out el
      ∧ ∃ xs ys, out = xs ++ ys
          ∧ (∀ e ∈ xs, e.mode = .C ∨ e.mode = .N)
          ∧ (∀ e ∈ ys, e.mode = .A ∨ e.mode = .R ∨ e.mode = .L ∨ e.mode = .S) := by
  obtain ⟨LI, LR, hout, hLI, hLR⟩ := sortOrd_ok_parts el tables ordI ordR out hI hR h
  constructor
  · rw [hout]
    exact (hLI.append hLR).trans (List.filter_append_perm isInitMode el)
  · refine ⟨LI, LR, hout, ?_, ?_⟩
    · intro e he
      have hmem := hLI.mem_iff.mp he
      have hm := List.of_mem_filter hmem
      cases hmode : e.mode <;> simp [isInitMode, hmode] at hm ⊢
    · intro e he
      have hmem := hLR.mem_iff.mp he
      have hm := List.of_mem_filter hmem
      cases hmode : e.mode <;> simp [isInitMode, hmode] at hm ⊢

/-- C10 witness: a concrete two-equation model on which Sort succeeds. -/
theorem sort_success_is_permutation_witness :
    List.Perm [cA, lOne] [cA, lOne]
      ∧ ∃ xs ys, ([cA, lOne] : List Equation) = xs ++ ys
          ∧ (∀ e ∈ xs, e.mode = .C ∨ e.mode = .N)
          ∧ (∀ e ∈ ys, e.mode = .A ∨ e.mode = .R ∨ e.mode = .L ∨ e.mode = .S) :=
  sort_success_is_permutation [cA, lOne] [] [0] [1] [cA, lOne]
    (by decide) (by decide) rfl

/-- C2 counterexample: Sort puts the mode-S equation sSup into the run
bucket and, for either possible run-bucket iteration order, emits it
BEFORE the mode-A equation aZ that depends on it — it is not kept aside
and appended after the sorted run bucket. -/
theorem c2_s_in_run_bucket_counterexample :
    sSup.mode = .S ∧ aZ.mode = .A
      ∧ sortOrd [sSup, aZ] [] [] [0, 1] = .ok [sSup, aZ]
      ∧ sortOrd [sSup, aZ] [] [] [1, 0] = .ok [sSup, aZ]
      ∧ bucketsOf [sSup, aZ] = .ok ([], [⟨0, "SUP", sSup, []⟩, ⟨1, "Z", aZ, []⟩]) :=
  ⟨rfl, rfl, rfl, rfl, rfl⟩

/-- C2 amended: Sort partitions the equations into exactly two buckets —
init (modes C, N) and run (modes A, R, L, S) — so supplement equations
participate in the run bucket's topological sort like any other run
equation; there is no separate suppl bucket. -/
theorem sort_two_buckets (el : List Equation) (bI bR : List Entry)
    (h : bucketsOf el = .ok (bI, bR)) :
    bI.map Entry.eqn = el.filter (fun e => e.mode == .C || e.mode == .N)
      ∧ bR.map Entry.eqn
          = el.filter (fun e => e.mode == .A || e.mode == .R || e.mode == .L || e.mode == .S) := by
  have hs := bucketsOf_spec el bI bR h
  refine ⟨hs.1, ?_⟩
  rw [hs.2]
  apply List.filter_congr
  intro e _
  cases hm : e.mode <;> simp [isInitMode, hm]

/-- C2 amended witness: the concrete buckets of the sSup, aZ model. -/
theorem sort_two_buckets_witness :
    ([] : List Entry).map Entry.eqn
        = [sSup, aZ].filter (fun e => e.mode == .C || e.mode == .N)
      ∧ ([⟨0, "SUP", sSup, []⟩, ⟨1, "Z", aZ, []⟩] : List Entry).map Entry.eqn
          = [sSup, aZ].filter
              (fun e => e.mode == .A || e.mode == .R || e.mode == .L || e.mode == .S) :=
  sort_two_buckets [sSup, aZ] [] [⟨0, "SUP", sSup, []⟩, ⟨1, "Z", aZ, []⟩] rfl

/-- C4 counterexample: the same source (two independent constants) sorted
under two different map-iteration orders — both orders occur across runs
of the Go program — yields two different equation evaluation orders. -/
theorem c4_order_nondeterminism_counterexample :
    sortOrd [cA, cB] [] [0, 1] [] = .ok [cA, cB]
      ∧ sortOrd [cA, cB] [] [1, 0] [] = .ok [cB, cA]
      ∧ ([cA, cB] : List Equation) ≠ [cB, cA] :=
  ⟨rfl, rfl, by decide⟩

/-- C4 amended: a run is deterministic relative to Sort's map-iteration
orders — equal orders give identical sorted lists (hence identical
evaluation order, states and samples), and any two successful sorts of
the same source contain exactly the same equations (the outputs are
permutations of each other), so only the relative order of independent
equations can differ between runs. -/
theorem sort_deterministic_given_order (el : List Equation) (tables : List String)
    (o1i o1r o2i o2r : List ℕ) (out1 out2 : List Equation)
    (h1i : List.Perm (permuteBy (initDepEntries el tables) o1i) (initDepEntries el tables))
    (h1r : List.Perm (permuteBy (runDepEntries el tables) o1r) (runDepEntries el tables))
    (h2i : List.Perm (permuteBy (initDepEntries el tables) o2i) (initDepEntries el tables))
    (h2r : List.Perm (permuteBy (runDepEntries el tables) o2r) (runDepEntries el tables))
    (h1 : sortOrd el tables o1i o1r = .ok out1)
    (h2 : sortOrd el tables o2i o2r = .ok out2) :
    List.Perm out1 out2 ∧ (o1i = o2i → o1r = o2r → out1 = out2) := by
  constructor
  · obtain ⟨LI1, LR1, ho1, hi1, hr1⟩ := sortOrd_ok_parts el tables o1i o1r out1 h1i h1r h1
    obtain ⟨LI2, LR2, ho2, hi2, hr2⟩ := sortOrd_ok_parts el tables o2i o2r out2 h2i h2r h2
    rw [ho1, ho2]
    exact (hi1.append hr1).trans ((hi2.append hr2).symm)
  · intro hei her
    rw [hei, her] at h1
    rw [h1] at h2
    injection h2

/-- C4 amended witness: the two-constant model under one fixed order. -/
theorem sort_deterministic_given_order_witness :
    List.Perm [cA, cB] [cA, cB] ∧ ([0, 1] = [0, 1] → ([] : List ℕ) = [] → [cA, cB] = [cA, cB]) :=
  sort_deterministic_given_order [cA, cB] [] [0, 1] [] [0, 1] [] [cA, cB] [cA, cB]
    (by decide) (by decide) (by decide) (by decide) rfl rfl

/-- C3 counterexample: with the model not in editing mode, adding eL2 over
the stored duplicate eL1 returns the EqnOverwrite failure and nevertheless
REPLACES the stored equation (the list is not left unchanged); and a
mode-N equation with the same bare name as a stored mode-C declaration is
not detected as a duplicate at all (kinds differ, Compare is not 7), so it
is appended with success instead of failing. -/
theorem c3_overwrite_counterexample :
    addEquations false [eL1] [eL2] = ([eL2], some .eqnOverwrite)
      ∧ ([eL2] : List Equation) ≠ [eL1]
      ∧ nameCompare cX.target nX.target ≠ 7
      ∧ addEquations false [cX] [nX] = ([cX, nX], none) :=
  ⟨rfl, by decide, by decide, rfl⟩

/-- C3 amended: two equations match only when their targets match exactly
(same name, kind and stage).  Adding a matching duplicate replaces the
stored equation in every case; the call fails with EqnOverwrite exactly
when the model is not in editing mode.  A non-duplicate is appended with
success. -/
theorem add_statement_duplicate (edit : Bool) (stored : List Equation) (e : Equation)
    (hv : validateTargetNil e = true) :
    (elContains stored e = true →
      addEquations edit stored [e]
        = (elReplace stored e, if edit then none else some .eqnOverwrite))
      ∧ (elContains stored e = false →
          addEquations edit stored [e] = (stored ++ [e], none)) := by
  constructor <;> intro hc <;> simp [addEquations, hv, hc]

/-- C3 amended witness: replacing a duplicate level equation. -/
theorem add_statement_duplicate_witness :
    (elContains [eL1] eL2 = true →
      addEquations false [eL1] [eL2]
        = (elReplace [eL1] eL2, if false then none else some .eqnOverwrite))
      ∧ (elContains [eL1] eL2 = false →
          addEquations false [eL1] [eL2] = ([eL1] ++ [eL2], none)) :=
  add_statement_duplicate false [eL1] eL2 (by decide)

/-- C1: the per-identifier classification rule of equation.go holds as the
claim states it for each single dependency mode (ENFORCE always yields a
dependency, SKIP always a reference, NORMAL a dependency exactly for
non-OLD stages) — but the claim's per-slot independence is NOT what the
code implements: equation.go's check loop hands ONE mode value to every
argument of a call, and no single mode reproduces the per-slot
classification demanded by SMOOTH's registry entry (first slot SKIP,
second slot NORMAL) on the argument stages of a call SMOOTH(X.K, TAU). -/
theorem c1_dep_mode_classification :
    (∀ st : Stage, classifyIdent .enforce st = true)
      ∧ (∀ st : Stage, classifyIdent .skip st = false)
      ∧ (∀ st : Stage, classifyIdent .normal st = decide (st ≠ .old))
      ∧ depModesOf "SMOOTH" = [.skip, .normal]
      ∧ (∀ dm : DepMode,
          classifyUniform dm [.new, .non] ≠ classifySlots (depModesOf "SMOOTH") [.new, .non]) := by
  refine ⟨?_, ?_, ?_, rfl, ?_⟩ <;> intro x <;> cases x <;> decide

/-- C6 counterexample: a parsed DELAY3 call allocates 7 internal
variables, not 6. -/
theorem c6_delay3_internals_counterexample :
    hasFunction "DELAY3" [.var ⟨"RT", .rate, .old⟩, .num "5" 5] 0
        = .ok ([.enforce, .normal], ["_1", "_2", "_3", "_4", "_5", "_6", "_7"], 7)
      ∧ (["_1", "_2", "_3", "_4", "_5", "_6", "_7"] : List String).length ≠ 6 :=
  ⟨rfl, by decide⟩

/-- C6 amended: every parsed DELAY3 call with its two explicit arguments
(and a first argument passing the rate-OLD check) allocates exactly 7
hidden internal variables with fresh underscore-numbered names, which are
appended to the call site's argument list, giving a 9-element call. -/
theorem delay3_seven_internals (args : List Arg) (c : ℕ)
    (h2 : args.length = 2) (hc : checkArgs .rateOld args = true) :
    hasFunction "DELAY3" args c
        = .ok ([.enforce, .normal], (List.range 7).map (fun i => autoName (c + i + 1)), c + 7)
      ∧ ((List.range 7).map (fun i => autoName (c + i + 1))).length = 7
      ∧ (expandCall args ((List.range 7).map (fun i => autoName (c + i + 1)))).length = 9 := by
  have hsig : fcnSig "DELAY3" = some ⟨2, 7, [.enforce, .normal], .rateOld⟩ := rfl
  unfold hasFunction
  rw [hsig]
  simp [h2, hc, expandCall]

/-- C6 amended witness: the concrete DELAY3 call from counter 0. -/
theorem delay3_seven_internals_witness :
    hasFunction "DELAY3" [.var ⟨"RT", .rate, .old⟩, .num "5" 5] 0
        = .ok ([.enforce, .normal], (List.range 7).map (fun i => autoName (0 + i + 1)), 0 + 7)
      ∧ ((List.range 7).map (fun i => autoName (0 + i + 1))).length = 7
      ∧ (expandCall [.var ⟨"RT", .rate, .old⟩, .num "5" 5]
          ((List.range 7).map (fun i => autoName (0 + i + 1)))).length = 9 :=
  delay3_seven_internals [.var ⟨"RT", .rate, .old⟩, .num "5" 5] 0 rfl rfl

/-- C5 counterexample: with TIME=1 and DT=2 in the current state,
RAMP(2, 0) returns 4, not s times (TIME minus t0) = 2, and it mutates the
model state — the accumulator is written into the current state under the
key 0 (the raw text of the last argument). -/
theorem c5_ramp_counterexample :
    rampEval [.num "2" 2, .num "0" 0] mRamp
        = .ok (4, ⟨[], [], [("0", 4), ("TIME", 1), ("DT", 2)]⟩)
      ∧ (4 : ℚ) ≠ 2 * (1 - 0)
      ∧ (⟨[], [], [("0", 4), ("TIME", 1), ("DT", 2)]⟩ : Mdl) ≠ mRamp := by
  refine ⟨?_, by norm_num, by decide⟩
  simp +decide [rampEval, stepEval, resolveArg, dfltArg, qCompare, eps, setVal, List.lookup,
    mRamp]
  norm_num

/-- C5 amended: RAMP(s, t0) with literal arguments evaluates
STEP(s, t0) — s once TIME has reached t0 under the 1e-9-tolerant compare,
else 0 — and returns the previous-state value stored under the raw text of
its last argument (t0's text, as RAMP allocates no internal variable) plus
DT times that STEP value, writing the result back into the current state
under the same key; it is an accumulator, not the closed form s times
(TIME minus t0), and it does modify a state variable. -/
theorem ramp_accumulates (m : Mdl) (s t0 tv : ℚ) (sTxt tTxt : String)
    (ht : m.current.lookup "TIME" = some tv) :
    rampEval [.num sTxt s, .num tTxt t0] m
      = .ok ((m.last.lookup tTxt).getD 0
               + ((m.current.lookup "DT").getD 0) * (if 0 ≤ qCompare tv t0 then s else 0),
             { m with current := setVal tTxt ((m.last.lookup tTxt).getD 0
               + ((m.current.lookup "DT").getD 0)
                   * (if 0 ≤ qCompare tv t0 then s else 0)) m.current }) := by
  simp [rampEval, stepEval, resolveArg, dfltArg, ht, Arg.key, List.getLastD]

/-- C5 amended witness: RAMP(2, 0) on the concrete model mRamp. -/
theorem ramp_accumulates_witness :
    rampEval [.num "2" 2, .num "0" 0] mRamp
      = .ok ((mRamp.last.lookup "0").getD 0
               + ((mRamp.current.lookup "DT").getD 0) * (if 0 ≤ qCompare 1 0 then 2 else 0),
             { mRamp with current := setVal "0" ((mRamp.last.lookup "0").getD 0
               + ((mRamp.current.lookup "DT").getD 0)
                   * (if 0 ≤ qCompare 1 0 then 2 else 0)) mRamp.current }) :=
  ramp_accumulates mRamp 2 0 1 "2" "0" rfl

/-- C7: within every iteration of the run loop, any evaluation of a
level (L) or supplement (S) equation happens strictly before the
printer's Add call, and the Add call happens strictly before the TIME
advance — so the sinks observe the end-of-step state at the
not-yet-advanced TIME. -/
theorem sinks_after_levels_before_time_advance (runEqns : List Equation) (ep i j k : ℕ)
    (e : Equation)
    (hi : (epochEvents runEqns ep)[i]? = some (.evalEqn e))
    (hmode : e.mode = .L ∨ e.mode = .S)
    (hj : (epochEvents runEqns ep)[j]? = some (.printAdd ep))
    (hk : (epochEvents runEqns ep)[k]? = some .timeAdv) :
    i < j ∧ j < k := by
  have ci := eventAt_cases runEqns ep i _ hi
  have cj := eventAt_cases runEqns ep j _ hj
  have ck := eventAt_cases runEqns ep k _ hk
  rcases cj with ⟨q, _, hq, _⟩ | ⟨hq, _⟩ | ⟨q, _, hq, _, _⟩ | ⟨_, hj2⟩ | ⟨hq, _⟩ | ⟨hq, _⟩ <;>
    try simp at hq
  rcases ck with ⟨q, _, hq, _⟩ | ⟨hq, _⟩ | ⟨q, _, hq, _, _⟩ | ⟨hq, _⟩ | ⟨hq, _⟩ | ⟨_, hk2⟩ <;>
    try simp at hq
  rcases ci with ⟨q, hqm, hq, _⟩ | ⟨hq, _⟩ | ⟨q, _, _, hi1, hi2⟩ | ⟨hq, _⟩ | ⟨hq, _⟩ | ⟨hq, _⟩ <;>
    try simp at hq
  · exfalso
    subst hq
    have har := List.of_mem_filter hqm
    rcases hmode with hm | hm <;> simp [isAR, hm] at har
  · omega

/-- C7 witness: the one-level model, where the level evaluation sits at
index 1, the printer Add at index 2 and the TIME advance at index 4. -/
theorem sinks_after_levels_before_time_advance_witness : (1 : ℕ) < 2 ∧ (2 : ℕ) < 4 :=
  sinks_after_levels_before_time_advance [lOne] 1 1 2 4 lOne rfl (Or.inl rfl) rfl rfl

/-- Tolerant compare is zero exactly inside the 1e-9 band. -/
lemma qCompare_eq_zero_iff (a b : ℚ) : qCompare a b = 0 ↔ |a - b| < eps := by
  unfold qCompare
  split_ifs with h1 h2 <;> simp [h1]

/-- C8: a table function evaluation over an existing table whose other
arguments resolve fails with WrongTableSize exactly when the supplied
triple (min, max, step) violates (max-min) = (n-1)*step within the 1e-9
tolerance, where n is the number of table samples; when the identity holds
within tolerance that error is never produced.  The mode parameter covers
TABLE and TABHL (0), TABXT (1) and TABPL (2). -/
theorem table_size_check (args : List Arg) (m : Mdl) (mode : ℕ) (tbl : Table)
    (x mn mx st : ℚ)
    (ht : m.tables.lookup (args.getD 0 dfltArg).key = some tbl)
    (h1 : resolveArg (args.getD 1 dfltArg) m = .ok x)
    (h2 : resolveArg (args.getD 2 dfltArg) m = .ok mn)
    (h3 : resolveArg (args.getD 3 dfltArg) m = .ok mx)
    (h4 : resolveArg (args.getD 4 dfltArg) m = .ok st) :
    tableFn args m mode = .error .wrongTableSize
      ↔ ¬ |(mx - mn) - ((tbl.data.length : ℚ) - 1) * st| < eps := by
  unfold tableFn
  rw [ht, h1, h2, h3, h4]
  simp only
  rw [← qCompare_eq_zero_iff]
  by_cases hq : qCompare (mx - mn) (((tbl.data.length : ℚ) - 1) * st) = 0
  · rw [if_neg (by simpa using hq)]
    simp [hq]
  · rw [if_pos (by simpa using hq)]
    simp [hq]

/-- C8 witness: TABLE(T, 0, 0, 1, 1) over the two-sample table T, whose
arguments satisfy the size identity exactly. -/
theorem table_size_check_witness :
    tableFn argsTab mTab 0 = .error .wrongTableSize
      ↔ ¬ |((1 : ℚ) - 0) - (((⟨[0, 1], [0, 1]⟩ : Table).data.length : ℚ) - 1) * 1| < eps :=
  table_size_check argsTab mTab 0 ⟨[0, 1], [0, 1]⟩ 0 0 1 1 rfl rfl rfl rfl rfl

/-- Closed form of the loop variable. -/
lemma stepIter_eq (time dt : ℚ) : ∀ n : ℕ, stepIter time dt n = time + n * dt
  | 0 => by simp [stepIter]
  | n + 1 => by
    have ih := stepIter_eq time dt n
    rw [stepIter, Function.iterate_succ_apply']
    rw [stepIter] at ih
    rw [ih]
    push_cast
    ring

/-- C9: the epoch loop of Model.Run (arithmetic modelled exactly over the
rationals) terminates whenever DT is strictly positive; with TIME at most
LENGTH the loop body runs exactly for the iterations n = 0 up to
floor((LENGTH-TIME)/DT), i.e. floor((LENGTH-TIME)/DT)+1 epochs; and with
DT at most 0 and TIME at most LENGTH the loop condition holds forever. -/
theorem run_loop_epochs (time length dt : ℚ) :
    (0 < dt → ∃ n : ℕ, ¬ stepIter time dt n ≤ length)
      ∧ (0 < dt → time ≤ length →
          ∀ n : ℕ, (stepIter time dt n ≤ length ↔ (n : ℤ) ≤ ⌊(length - time) / dt⌋))
      ∧ (dt ≤ 0 → time ≤ length → ∀ n : ℕ, stepIter time dt n ≤ length) := by
  have key : ∀ n : ℕ, stepIter time dt n = time + n * dt := stepIter_eq time dt
  have main : 0 < dt → ∀ n : ℕ,
      (stepIter time dt n ≤ length ↔ (n : ℤ) ≤ ⌊(length - time) / dt⌋) := by
    intro hdt n
    rw [key]
    constructor
    · intro h
      apply Int.le_floor.mpr
      push_cast
      rw [le_div_iff₀ hdt]
      linarith
    · intro h
      have h2 := Int.le_floor.mp h
      push_cast at h2
      rw [le_div_iff₀ hdt] at h2
      linarith
  refine ⟨?_, fun hdt _ => main hdt, ?_⟩
  · intro hdt
    rcases le_or_lt time length with hle | hgt
    · have hfl : (0 : ℤ) ≤ ⌊(length - time) / dt⌋ :=
        Int.floor_nonneg.mpr (div_nonneg (by linarith) hdt.le)
      refine ⟨(⌊(length - time) / dt⌋ + 1).toNat, ?_⟩
      intro hcon
      have h2 := (main hdt _).mp hcon
      rw [Int.toNat_of_nonneg (by omega)] at h2
      omega
    · refine ⟨0, ?_⟩
      rw [key]
      push_cast
      linarith
  · intro hdt hle n
    rw [key]
    have hnn : (0 : ℚ) ≤ (n : ℚ) := by positivity
    nlinarith

/-- C9 witness: TIME = 0, LENGTH = 1, DT = 2, checked at iteration 0. -/
theorem run_loop_epochs_witness :
    (0 : ℚ) < 2 ∧ (0 : ℚ) ≤ 1
      ∧ (stepIter 0 2 0 ≤ 1 ↔ (0 : ℤ) ≤ ⌊((1 : ℚ) - 0) / 2⌋) :=
  ⟨by norm_num, by norm_num, (run_loop_epochs 0 1 2).2.1 (by norm_num) (by norm_num) 0⟩

end Dynamo
